import Mathlib

/-
Verification of the view-cone projection and interactive orientation-sync
subsystem of the cmscomponents repository.

The embedding is shallow: each TypeScript function of the repository is
translated into a Lean definition over the real numbers (JS numbers are
modelled as elements of the real field; the SVG path string is modelled as
the sequence of path commands it renders, since both implementations build
the string from the same numeric template).  Theorems are stated against
these definitions.
-/

namespace CmsComponents

/-- A 2D point, as the TS type Point = { x, y } (src/sectorPath.ts,
src/tinyplanetmap/app/CustomMap.tsx). -/
structure Pt where
  x : ℝ
  y : ℝ

/-- The view cone, as the TS type Cone = { yaw, pitch, radius? }
(src/tinyplanetmap/app/CustomMap.tsx lines 11-15). -/
structure Cone where
  yaw : ℝ
  pitch : ℝ
  radius : Option ℝ

/-- One command of an SVG path string.  sectorPath builds its result string
from a template holding exactly these commands and numbers; the string is
modelled as this command sequence (the numeric formatting of JS template
literals is shared by both implementations, so command-sequence equality is
string equality). -/
inductive SvgCmd where
  | move (x y : ℝ)
  | line (x y : ℝ)
  | arc (rx ry rotation : ℝ) (largeArcFlag sweepFlag : ℕ) (x y : ℝ)
  | close

/-- polarToCartesian from src/sectorPath.ts lines 13-23 (the copy in
src/unnamed/part_001 lines 5-7 is textually identical):
returns { x: cx + r * cos(angleRad), y: cy + r * sin(angleRad) }. -/
noncomputable def polarToCartesian (cx cy r angleRad : ℝ) : ℝ × ℝ :=
  (cx + r * Real.cos angleRad, cy + r * Real.sin angleRad)

/-- sectorPath from src/sectorPath.ts lines 34-70: degenerate marker for
pitch less or equal 0, otherwise move-line-arc-close with large-arc flag set
when pitch exceeds pi and sweep flag 1. -/
noncomputable def sectorPath (cx cy r yaw pitch : ℝ) : List SvgCmd :=
  if pitch ≤ 0 then [SvgCmd.move cx cy]
  else
    let startAngle := yaw - pitch / 2
    let endAngle := yaw + pitch / 2
    let s := polarToCartesian cx cy r startAngle
    let e := polarToCartesian cx cy r endAngle
    let largeArcFlag : ℕ := if Real.pi < pitch then 1 else 0
    [SvgCmd.move cx cy, SvgCmd.line s.1 s.2,
     SvgCmd.arc r r 0 largeArcFlag 1 e.1 e.2, SvgCmd.close]

namespace Part001

/-- sectorPath from src/unnamed/part_001 lines 11-31: same template but with
no guard on non-positive pitch; sweepFlag is the constant 1. -/
noncomputable def sectorPath (cx cy r yaw pitch : ℝ) : List SvgCmd :=
  let half := pitch / 2
  let startAngle := yaw - half
  let endAngle := yaw + half
  let s := polarToCartesian cx cy r startAngle
  let e := polarToCartesian cx cy r endAngle
  let largeArcFlag : ℕ := if Real.pi < pitch then 1 else 0
  let sweepFlag : ℕ := 1
  [SvgCmd.move cx cy, SvgCmd.line s.1 s.2,
   SvgCmd.arc r r 0 largeArcFlag sweepFlag e.1 e.2, SvgCmd.close]

end Part001

/- The point produced by polarToCartesian lies at Euclidean distance r from
the center, for nonnegative r. -/
lemma polarToCartesian_dist (cx cy r θ : ℝ) (hr : 0 ≤ r) :
    Real.sqrt (((polarToCartesian cx cy r θ).1 - cx) ^ 2 +
      ((polarToCartesian cx cy r θ).2 - cy) ^ 2) = r := by
  have key : ((polarToCartesian cx cy r θ).1 - cx) ^ 2 +
      ((polarToCartesian cx cy r θ).2 - cy) ^ 2 = r ^ 2 := by
    have h := Real.sin_sq_add_cos_sq θ
    simp only [polarToCartesian]
    ring_nf
    nlinarith [h]
  rw [key, Real.sqrt_sq hr]

/-- C1: for every center (cx, cy), nonnegative radius r (the data model takes
the radius to be a positive quantity), yaw and pitch with pitch in (0, 2*pi),
the boundary returned by sectorPath runs center, line to the arc start at
polar angle yaw - pitch/2, single arc to the arc end at polar angle
yaw + pitch/2, close; both arc endpoints lie at Euclidean distance exactly r
from the center, and the embedded large-arc flag is 1 iff pitch exceeds pi. -/
theorem sectorPath_endpoints_C1 (cx cy r yaw pitch : ℝ) (hr : 0 ≤ r)
    (h0 : 0 < pitch) (h2 : pitch < 2 * Real.pi) :
    ∃ s e : ℝ × ℝ,
      s = polarToCartesian cx cy r (yaw - pitch / 2) ∧
      e = polarToCartesian cx cy r (yaw + pitch / 2) ∧
      sectorPath cx cy r yaw pitch =
        [SvgCmd.move cx cy, SvgCmd.line s.1 s.2,
         SvgCmd.arc r r 0 (if Real.pi < pitch then 1 else 0) 1 e.1 e.2,
         SvgCmd.close] ∧
      Real.sqrt ((s.1 - cx) ^ 2 + (s.2 - cy) ^ 2) = r ∧
      Real.sqrt ((e.1 - cx) ^ 2 + (e.2 - cy) ^ 2) = r ∧
      ((if Real.pi < pitch then (1 : ℕ) else 0) = 1 ↔ Real.pi < pitch) := by
  refine ⟨polarToCartesian cx cy r (yaw - pitch / 2),
          polarToCartesian cx cy r (yaw + pitch / 2), rfl, rfl, ?_, ?_, ?_, ?_⟩
  · unfold sectorPath
    rw [if_neg (not_le.mpr h0)]
  · exact polarToCartesian_dist cx cy r (yaw - pitch / 2) hr
  · exact polarToCartesian_dist cx cy r (yaw + pitch / 2) hr
  · by_cases hp : Real.pi < pitch
    · simp [hp]
    · simp [hp]

/-- Witness for C1 at center (0,0), radius 1, yaw 0, pitch pi. -/
theorem sectorPath_endpoints_C1_witness :
    ∃ s e : ℝ × ℝ,
      s = polarToCartesian 0 0 1 (0 - Real.pi / 2) ∧
      e = polarToCartesian 0 0 1 (0 + Real.pi / 2) ∧
      sectorPath 0 0 1 0 Real.pi =
        [SvgCmd.move 0 0, SvgCmd.line s.1 s.2,
         SvgCmd.arc 1 1 0 (if Real.pi < Real.pi then 1 else 0) 1 e.1 e.2,
         SvgCmd.close] ∧
      Real.sqrt ((s.1 - 0) ^ 2 + (s.2 - 0) ^ 2) = 1 ∧
      Real.sqrt ((e.1 - 0) ^ 2 + (e.2 - 0) ^ 2) = 1 ∧
      ((if Real.pi < Real.pi then (1 : ℕ) else 0) = 1 ↔ Real.pi < Real.pi) :=
  sectorPath_endpoints_C1 0 0 1 0 Real.pi zero_le_one Real.pi_pos
    (by linarith [Real.pi_pos])

/-- C3: with pitch less or equal 0, sectorPath returns the degenerate shape
whose only coordinate is the center (cx, cy); sectorPath is a total function
(it is defined, and returns this renderable degenerate shape, on every
input), so it never throws. -/
theorem sectorPath_degenerate_C3 (cx cy r yaw pitch : ℝ) (h : pitch ≤ 0) :
    sectorPath cx cy r yaw pitch = [SvgCmd.move cx cy] := by
  unfold sectorPath
  rw [if_pos h]

/-- Witness for C3 at pitch 0. -/
theorem sectorPath_degenerate_C3_witness :
    sectorPath 1 2 3 4 0 = [SvgCmd.move 1 2] :=
  sectorPath_degenerate_C3 1 2 3 4 0 le_rfl

/-- C10: for every center, radius, yaw and every positive pitch, the two
sectorPath implementations (src/sectorPath.ts and the duplicate in
src/unnamed/part_001) emit the same command sequence, hence the same SVG
path string: the implementations are behaviorally equivalent on all inputs
with positive pitch. -/
theorem sectorPath_equiv_C10 (cx cy r yaw pitch : ℝ) (h : 0 < pitch) :
    sectorPath cx cy r yaw pitch = Part001.sectorPath cx cy r yaw pitch := by
  unfold sectorPath Part001.sectorPath
  rw [if_neg (not_le.mpr h)]

/-- Witness for C10 at pitch 1. -/
theorem sectorPath_equiv_C10_witness :
    sectorPath 0 0 1 0 1 = Part001.sectorPath 0 0 1 0 1 :=
  sectorPath_equiv_C10 0 0 1 0 1 one_pos

/-- handleKeyDown from src/tinyplanetmap/app/CustomMap.tsx lines 149-182
(the copy in src/unnamed/part_002 lines 137-170 is textually identical):
the switch over e.key, returning the cone passed to onConeChange, or none
when the key is not recognized (updated stays false and nothing is
emitted).  The guard on interactive and on the presence of onConeChange is
the caller's environment and is taken as satisfied. -/
noncomputable def handleKeyDown (key : String) (cone : Cone) : Option Cone :=
  if key = "ArrowLeft" then some { cone with yaw := cone.yaw - 0.02 }
  else if key = "ArrowRight" then some { cone with yaw := cone.yaw + 0.02 }
  else if key = "ArrowUp" then
    some { cone with pitch := min (cone.pitch + 0.02) (Real.pi * 1.8) }
  else if key = "ArrowDown" then
    some { cone with pitch := max (cone.pitch - 0.02) 0 }
  else none

/-- A sequence of key presses applied to the local cone state: each emission
of handleKeyDown becomes the next state (an unrecognized key leaves the
state unchanged). -/
noncomputable def applyKeys (keys : List String) (c : Cone) : Cone :=
  keys.foldl (fun acc k => (handleKeyDown k acc).getD acc) c

/- One key press preserves membership of pitch in [0, 1.8*pi]. -/
lemma handleKeyDown_getD_pitch_mem (k : String) (c : Cone)
    (h0 : 0 ≤ c.pitch) (h1 : c.pitch ≤ Real.pi * 1.8) :
    0 ≤ ((handleKeyDown k c).getD c).pitch ∧
      ((handleKeyDown k c).getD c).pitch ≤ Real.pi * 1.8 := by
  have hpi : (0 : ℝ) ≤ Real.pi * 1.8 := by positivity
  unfold handleKeyDown
  split_ifs <;> simp only [Option.getD_some, Option.getD_none]
  · exact ⟨h0, h1⟩
  · exact ⟨h0, h1⟩
  · exact ⟨le_min (by linarith) hpi, min_le_right _ _⟩
  · exact ⟨le_max_right _ _, max_le (by linarith) hpi⟩
  · exact ⟨h0, h1⟩

lemma applyKeys_pitch_mem (keys : List String) :
    ∀ c : Cone, 0 ≤ c.pitch → c.pitch ≤ Real.pi * 1.8 →
      0 ≤ (applyKeys keys c).pitch ∧ (applyKeys keys c).pitch ≤ Real.pi * 1.8 := by
  induction keys with
  | nil => intro c h0 h1; exact ⟨h0, h1⟩
  | cons k ks ih =>
    intro c h0 h1
    have h := handleKeyDown_getD_pitch_mem k c h0 h1
    exact ih _ h.1 h.2

/-- C5: starting from any cone whose pitch lies in [0, 1.8*pi] (the data
model's pitch invariant), any sequence of key presses keeps pitch in
[0, 1.8*pi]; moreover for every cone, ArrowUp sets pitch to
min (pitch + 0.02) (1.8*pi) - so the result never exceeds 1.8*pi and
saturates exactly there - ArrowDown sets pitch to max (pitch - 0.02) 0 - so
the result is never negative and saturates exactly at 0 - and
ArrowLeft/ArrowRight change yaw by 0.02 with no clamping, leaving pitch and
radius untouched. -/
theorem arrowKeys_pitch_clamp_C5 (c : Cone) (keys : List String)
    (h0 : 0 ≤ c.pitch) (h1 : c.pitch ≤ Real.pi * 1.8) :
    (0 ≤ (applyKeys keys c).pitch ∧ (applyKeys keys c).pitch ≤ Real.pi * 1.8) ∧
    (∀ d : Cone, handleKeyDown "ArrowUp" d =
        some ⟨d.yaw, min (d.pitch + 0.02) (Real.pi * 1.8), d.radius⟩ ∧
      min (d.pitch + 0.02) (Real.pi * 1.8) ≤ Real.pi * 1.8) ∧
    (∀ d : Cone, handleKeyDown "ArrowDown" d =
        some ⟨d.yaw, max (d.pitch - 0.02) 0, d.radius⟩ ∧
      0 ≤ max (d.pitch - 0.02) 0) ∧
    (∀ d : Cone, handleKeyDown "ArrowLeft" d =
        some ⟨d.yaw - 0.02, d.pitch, d.radius⟩) ∧
    (∀ d : Cone, handleKeyDown "ArrowRight" d =
        some ⟨d.yaw + 0.02, d.pitch, d.radius⟩) := by
  refine ⟨applyKeys_pitch_mem keys c h0 h1, ?_, ?_, ?_, ?_⟩
  · intro d
    exact ⟨by simp [handleKeyDown], min_le_right _ _⟩
  · intro d
    exact ⟨by simp [handleKeyDown], le_max_right _ _⟩
  · intro d
    simp [handleKeyDown]
  · intro d
    simp [handleKeyDown]

/-- Witness for C5 at the cone with yaw 0, pitch 0 and the empty key
sequence. -/
theorem arrowKeys_pitch_clamp_C5_witness :
    (0 ≤ (applyKeys [] ⟨0, 0, none⟩).pitch ∧
      (applyKeys [] ⟨0, 0, none⟩).pitch ≤ Real.pi * 1.8) ∧
    (∀ d : Cone, handleKeyDown "ArrowUp" d =
        some ⟨d.yaw, min (d.pitch + 0.02) (Real.pi * 1.8), d.radius⟩ ∧
      min (d.pitch + 0.02) (Real.pi * 1.8) ≤ Real.pi * 1.8) ∧
    (∀ d : Cone, handleKeyDown "ArrowDown" d =
        some ⟨d.yaw, max (d.pitch - 0.02) 0, d.radius⟩ ∧
      0 ≤ max (d.pitch - 0.02) 0) ∧
    (∀ d : Cone, handleKeyDown "ArrowLeft" d =
        some ⟨d.yaw - 0.02, d.pitch, d.radius⟩) ∧
    (∀ d : Cone, handleKeyDown "ArrowRight" d =
        some ⟨d.yaw + 0.02, d.pitch, d.radius⟩) :=
  arrowKeys_pitch_clamp_C5 ⟨0, 0, none⟩ [] le_rfl (by positivity)

/-- The popup pan pointer-move handler from
src/tinyplanetmap/app/CustomMap.tsx lines 389-403: the new pan offset per
axis is the starting pan minus the pointer delta, clamped to
[0, max 0 (content - viewport)]. -/
noncomputable def panMove (startPan startPtr ptr : ℝ × ℝ)
    (contentW contentH viewportW viewportH : ℝ) : ℝ × ℝ :=
  let maxX := max 0 (contentW - viewportW)
  let maxY := max 0 (contentH - viewportH)
  let dx := ptr.1 - startPtr.1
  let dy := ptr.2 - startPtr.2
  (min (max (startPan.1 - dx) 0) maxX, min (max (startPan.2 - dy) 0) maxY)

/-- C8: during popup panning, each axis of the new pan offset equals the
starting offset minus the pointer delta clamped independently to
[0, max 0 (content - viewport)]: the pan is never negative, never exceeds
max 0 (content - viewport) - in particular never exceeds content - viewport
whenever viewport fits inside content - and saturates at 0 when the content
is no larger than the viewport. -/
theorem popupPan_clamp_C8 (startPan startPtr ptr : ℝ × ℝ)
    (contentW contentH viewportW viewportH : ℝ) :
    (panMove startPan startPtr ptr contentW contentH viewportW viewportH =
      (min (max (startPan.1 - (ptr.1 - startPtr.1)) 0) (max 0 (contentW - viewportW)),
       min (max (startPan.2 - (ptr.2 - startPtr.2)) 0) (max 0 (contentH - viewportH)))) ∧
    (0 ≤ (panMove startPan startPtr ptr contentW contentH viewportW viewportH).1 ∧
     (panMove startPan startPtr ptr contentW contentH viewportW viewportH).1 ≤
        max 0 (contentW - viewportW)) ∧
    (0 ≤ (panMove startPan startPtr ptr contentW contentH viewportW viewportH).2 ∧
     (panMove startPan startPtr ptr contentW contentH viewportW viewportH).2 ≤
        max 0 (contentH - viewportH)) ∧
    (viewportW ≤ contentW →
      (panMove startPan startPtr ptr contentW contentH viewportW viewportH).1 ≤
        contentW - viewportW) ∧
    (viewportH ≤ contentH →
      (panMove startPan startPtr ptr contentW contentH viewportW viewportH).2 ≤
        contentH - viewportH) ∧
    (contentW ≤ viewportW →
      (panMove startPan startPtr ptr contentW contentH viewportW viewportH).1 = 0) ∧
    (contentH ≤ viewportH →
      (panMove startPan startPtr ptr contentW contentH viewportW viewportH).2 = 0) := by
  refine ⟨rfl, ⟨?_, ?_⟩, ⟨?_, ?_⟩, ?_, ?_, ?_, ?_⟩
  · exact le_min (le_max_right _ _) (le_max_left _ _)
  · exact min_le_right _ _
  · exact le_min (le_max_right _ _) (le_max_left _ _)
  · exact min_le_right _ _
  · intro h
    calc (panMove startPan startPtr ptr contentW contentH viewportW viewportH).1
        ≤ max 0 (contentW - viewportW) := min_le_right _ _
      _ = contentW - viewportW := max_eq_right (by linarith)
  · intro h
    calc (panMove startPan startPtr ptr contentW contentH viewportW viewportH).2
        ≤ max 0 (contentH - viewportH) := min_le_right _ _
      _ = contentH - viewportH := max_eq_right (by linarith)
  · intro h
    have hm : max 0 (contentW - viewportW) = 0 := max_eq_left (by linarith)
    simp only [panMove, hm]
    exact min_eq_right (le_max_right _ _)
  · intro h
    have hm : max 0 (contentH - viewportH) = 0 := max_eq_left (by linarith)
    simp only [panMove, hm]
    exact min_eq_right (le_max_right _ _)

/-- atan2 of JS (Math.atan2(dy, dx)), modelled as the argument of the
complex number dx + dy*i: it agrees with atan2 on every nonzero vector,
with values in (-pi, pi]. -/
noncomputable def atan2 (dy dx : ℝ) : ℝ := Complex.arg ⟨dx, dy⟩

/-- handlePointerMove from src/tinyplanetmap/app/CustomMap.tsx lines 116-137
(the copy in src/unnamed/part_002 lines 100-123 is textually identical):
when not dragging, not interactive, the container ref is null or no
onConeChange callback is given, nothing is emitted; otherwise the scheduled
frame emits the cone with yaw replaced by atan2 of the pointer offset from
the active origin. -/
noncomputable def handlePointerMove (isDragging interactive hasContainer hasCallback : Bool)
    (origin : Pt) (cone : Cone) (p : Pt) : Option Cone :=
  if !isDragging || !interactive || !hasContainer || !hasCallback then none
  else some { cone with yaw := atan2 (p.y - origin.y) (p.x - origin.x) }

/-- C9: while dragging (with the handler's guards satisfied), a pointer-move
at p emits a cone-change whose yaw is atan2 (p.y - origin.y, p.x - origin.x)
from the active origin and whose pitch and radius are unchanged; a pointer
at (origin.x + 1, origin.y) yields yaw exactly 0 and a pointer at
(origin.x, origin.y + 1) yields yaw exactly pi/2. -/
theorem handlePointerMove_yaw_C9 (origin : Pt) (cone : Cone) (p : Pt) :
    handlePointerMove true true true true origin cone p =
      some ⟨atan2 (p.y - origin.y) (p.x - origin.x), cone.pitch, cone.radius⟩ ∧
    handlePointerMove true true true true origin cone ⟨origin.x + 1, origin.y⟩ =
      some ⟨0, cone.pitch, cone.radius⟩ ∧
    handlePointerMove true true true true origin cone ⟨origin.x, origin.y + 1⟩ =
      some ⟨Real.pi / 2, cone.pitch, cone.radius⟩ := by
  have hone : atan2 (0 : ℝ) 1 = 0 := by
    have h1 : (⟨1, 0⟩ : ℂ) = 1 := Complex.ext rfl rfl
    simp only [atan2, h1, Complex.arg_one]
  have hI : atan2 (1 : ℝ) 0 = Real.pi / 2 := by
    have h1 : (⟨0, 1⟩ : ℂ) = Complex.I := Complex.ext rfl rfl
    simp only [atan2, h1, Complex.arg_I]
  refine ⟨by simp [handlePointerMove], ?_, ?_⟩
  · have hx : origin.x + 1 - origin.x = (1 : ℝ) := by ring
    have hy : origin.y - origin.y = (0 : ℝ) := by ring
    simp only [handlePointerMove]
    simp only [Bool.not_true, Bool.or_self, Bool.false_or]
    simp only [hx, hy, hone]
    rfl
  · have hx : origin.x - origin.x = (0 : ℝ) := by ring
    have hy : origin.y + 1 - origin.y = (1 : ℝ) := by ring
    simp only [handlePointerMove]
    simp only [Bool.not_true, Bool.or_self, Bool.false_or]
    simp only [hx, hy, hI]
    rfl

/-- The observable effects of one orientation emission on the binding layer:
the new local cone state, the payload persisted to the per-context store by
setConeForPath (none when no persist happens), and the payload delivered to
the external onPositionChange listener (none when it is not invoked). -/
structure EmissionEffects where
  cone : Cone
  persisted : Option Cone
  notified : Option (ℝ × ℝ)

/-- The subscribeViewerPosition callback of CustomMap
(src/tinyplanetmap/app/CustomMap.tsx lines 583-595): inside the updater, an
emission whose yaw equals the stored yaw returns the previous cone without
persisting; otherwise the cone with the new yaw is stored and persisted.
In both cases the handler then invokes onPositionChangeRef with the emitted
yaw and the pitch captured when the effect subscribed
(subscribedPitch, the coneLocal.pitch closed over by the effect). -/
noncomputable def onViewerPositionEmit (prev : Cone) (subscribedPitch yaw : ℝ) :
    EmissionEffects :=
  if prev.yaw = yaw then
    { cone := prev, persisted := none, notified := some (yaw, subscribedPitch) }
  else
    { cone := { prev with yaw := yaw },
      persisted := some ⟨yaw, prev.pitch, prev.radius⟩,
      notified := some (yaw, subscribedPitch) }

/-- The storeYaw effect of CustomMap (src/tinyplanetmap/app/CustomMap.tsx
lines 598-606): reacting to a store yaw change, with no external listener
notification at all; returns the new cone and the persisted payload, if
any. -/
noncomputable def onStoreYawChange (prev : Cone) (storeYaw : ℝ) :
    Cone × Option Cone :=
  if prev.yaw = storeYaw then (prev, none)
  else ({ prev with yaw := storeYaw }, some ⟨storeYaw, prev.pitch, prev.radius⟩)

/-- Counterexample to C2: at the concrete cone (yaw 0, pitch 1) and an
emission with the identical yaw 0, the handler does not persist, but it
does notify the external position-change listener (with the emitted yaw and
the captured pitch) - the claim that no notification occurs is false. -/
theorem viewerEmit_equalYaw_C2_cex :
    (onViewerPositionEmit ⟨0, 1, none⟩ 1 0).persisted = none ∧
    (onViewerPositionEmit ⟨0, 1, none⟩ 1 0).notified = some (0, 1) ∧
    ¬ (onViewerPositionEmit ⟨0, 1, none⟩ 1 0).notified = none := by
  refine ⟨?_, ?_, ?_⟩ <;> simp [onViewerPositionEmit]

/-- C2 amended: for every context key, an orientation emission whose yaw
equals the yaw already stored in the local cone state neither updates the
local cone nor persists it to the per-context store (and the parallel
storeYaw effect likewise leaves the state untouched and persists nothing);
the external position-change listener is however still notified on every
emission, with the emitted yaw and the pitch captured at subscription. -/
theorem viewerEmit_equalYaw_noPersist_C2 (prev : Cone) (subscribedPitch yaw : ℝ)
    (h : prev.yaw = yaw) :
    (onViewerPositionEmit prev subscribedPitch yaw).cone = prev ∧
    (onViewerPositionEmit prev subscribedPitch yaw).persisted = none ∧
    (onViewerPositionEmit prev subscribedPitch yaw).notified =
      some (yaw, subscribedPitch) ∧
    onStoreYawChange prev yaw = (prev, none) := by
  refine ⟨?_, ?_, ?_, ?_⟩ <;> simp [onViewerPositionEmit, onStoreYawChange, h]

/-- Witness for the amended C2 at the cone (yaw 0, pitch 1) and emitted
yaw 0. -/
theorem viewerEmit_equalYaw_noPersist_C2_witness :
    (onViewerPositionEmit ⟨0, 1, none⟩ 2 0).cone = ⟨0, 1, none⟩ ∧
    (onViewerPositionEmit ⟨0, 1, none⟩ 2 0).persisted = none ∧
    (onViewerPositionEmit ⟨0, 1, none⟩ 2 0).notified = some (0, 2) ∧
    onStoreYawChange ⟨0, 1, none⟩ 0 = (⟨0, 1, none⟩, none) :=
  viewerEmit_equalYaw_noPersist_C2 ⟨0, 1, none⟩ 2 0 rfl

/-- The legacy single-point percentage format
({ xPercent, yPercent }, src/unnamed/part_001 lines 88-97). -/
structure LegacyPoint where
  xPercent : ℝ
  yPercent : ℝ

/-- A raw record of the store's pathToState map (typed any in
src/unnamed/part_001 line 66 so the legacy shape can coexist):
points is some when Array.isArray(raw.points) holds, point is some when the
legacy raw.point is present, activePoint is some when
Number.isInteger(raw.activePoint) holds, cone is some when raw.cone is
present. -/
structure RawRecord where
  points : Option (List Pt)
  point : Option LegacyPoint
  activePoint : Option ℤ
  cone : Option Cone

/-- The public PathState shape (src/unnamed/part_001 lines 59-63). -/
structure PathState where
  points : List Pt
  activePoint : ℤ
  cone : Cone

/-- defaultPathState (src/unnamed/part_001 lines 74-78). -/
noncomputable def defaultPathState : PathState :=
  { points := [], activePoint := 0, cone := ⟨0, Real.pi / 3, none⟩ }

/-- The raw record a stored PathState object becomes (an object spread of a
PathState has a points array, an integer activePoint, a cone and no legacy
point field). -/
def rawOfPathState (s : PathState) : RawRecord :=
  { points := some s.points, point := none,
    activePoint := some s.activePoint, cone := some s.cone }

/-- The store's keyed map pathToState. -/
def StoreMap : Type := String → Option RawRecord

/-- getStateForPath (src/unnamed/part_001 lines 82-104): a missing context
seeds and stores a copy of the default; a legacy record (no points array
but a legacy point) reads as an empty point list with activePoint 0 and the
stored (or default) cone; otherwise each field falls back to its default.
Returns the read state together with the map after the read. -/
noncomputable def getStateForPath (m : StoreMap) (path : String) :
    PathState × StoreMap :=
  match m path with
  | none =>
      (defaultPathState,
        fun q => if q = path then some (rawOfPathState defaultPathState) else m q)
  | some raw =>
      match raw.points, raw.point with
      | none, some _ =>
          ({ points := [], activePoint := 0, cone := raw.cone.getD defaultPathState.cone }, m)
      | pts, _ =>
          ({ points := pts.getD [], activePoint := raw.activePoint.getD 0,
             cone := raw.cone.getD defaultPathState.cone }, m)

/-- setConeForPath (src/unnamed/part_001 lines 118-120): replaces only the
cone of the context's record, treating a missing context as the default
state before merging. -/
noncomputable def setConeForPath (m : StoreMap) (path : String) (cone : Cone) :
    StoreMap :=
  fun q =>
    if q = path then
      some { ((m path).getD (rawOfPathState defaultPathState)) with cone := some cone }
    else m q

/-- C7: for every store contents m, context key k and cone c: reading twice
with no intervening write returns equal states both times; and a
setConeForPath followed by a read returns a state whose cone is exactly c
while its points and activePoint are unchanged from what a read before the
write returned (a missing context being treated as the default state). -/
theorem mapStore_get_set_C7 (m : StoreMap) (k : String) (c : Cone) :
    (getStateForPath m k).1 = (getStateForPath (getStateForPath m k).2 k).1 ∧
    (getStateForPath (setConeForPath m k c) k).1.cone = c ∧
    (getStateForPath (setConeForPath m k c) k).1.points =
      (getStateForPath m k).1.points ∧
    (getStateForPath (setConeForPath m k c) k).1.activePoint =
      (getStateForPath m k).1.activePoint := by
  rcases hmk : m k with _ | raw
  · refine ⟨?_, ?_, ?_, ?_⟩ <;>
      simp [getStateForPath, setConeForPath, rawOfPathState, defaultPathState, hmk]
  · rcases hp : raw.points with _ | pts <;> rcases hq : raw.point with _ | lp <;>
      refine ⟨?_, ?_, ?_, ?_⟩ <;>
        simp [getStateForPath, setConeForPath, rawOfPathState, hmk, hp, hq]

/-- Euclidean distance helper: Math.hypot(dx, dy) and
Math.sqrt(dx*dx + dy*dy) both compute this. -/
noncomputable def hypot (dx dy : ℝ) : ℝ := Real.sqrt (dx * dx + dy * dy)

/-- One iteration of the origin-picking loop of handlePointerDown
(src/tinyplanetmap/app/CustomMap.tsx lines 95-101): the accumulator is the
pair (picked, best) - none standing for picked = -1, best = Infinity, under
which the loop's test dp < best && dp <= originHandleRadius reduces to
dp <= originHandleRadius because dp < Infinity always holds. -/
noncomputable def stepAcc (r dp : ℝ) (i : ℕ) :
    Option (ℕ × ℝ) → Option (ℕ × ℝ)
  | none => if dp ≤ r then some (i, dp) else none
  | some (j, best) => if dp < best ∧ dp ≤ r then some (i, dp) else some (j, best)

/-- The origin-picking loop itself, iterating over the remaining points with
the index of the next point and the accumulator so far. -/
noncomputable def pickNearestAux (p : Pt) (r : ℝ) :
    List Pt → ℕ → Option (ℕ × ℝ) → Option (ℕ × ℝ)
  | [], _, acc => acc
  | q :: rest, i, acc =>
      pickNearestAux p r rest (i + 1)
        (stepAcc r (hypot (p.x - q.x) (p.y - q.y)) i acc)

/-- The outcome of handlePointerDown: nothing, an origin-selection
notification with the picked index (after which the handler returns, so no
drag starts), or the start of a dragging gesture with pointer capture. -/
inductive PointerAction where
  | noAction
  | selectOrigin (index : ℕ)
  | startDrag

/-- handlePointerDown from src/tinyplanetmap/app/CustomMap.tsx lines 86-114:
when interactive, first run the origin-picking loop over all points; a pick
emits the origin-selection and returns; otherwise a pointer within
originHandleRadius of the active origin starts the dragging gesture. -/
noncomputable def handlePointerDown (interactive : Bool) (points : List Pt)
    (origin : Pt) (originHandleRadius : ℝ) (p : Pt) : PointerAction :=
  if !interactive then PointerAction.noAction
  else
    match pickNearestAux p originHandleRadius points 0 none with
    | some (i, _) => PointerAction.selectOrigin i
    | none =>
        if hypot (p.x - origin.x) (p.y - origin.y) ≤ originHandleRadius then
          PointerAction.startDrag
        else PointerAction.noAction

/- Reduction lemmas for one loop iteration. -/
lemma stepAcc_empty_hit (r dp : ℝ) (i : ℕ) (h : dp ≤ r) :
    stepAcc r dp i none = some (i, dp) := if_pos h

lemma stepAcc_empty_miss (r dp : ℝ) (i : ℕ) (h : ¬ dp ≤ r) :
    stepAcc r dp i none = none := if_neg h

lemma stepAcc_some_eq (r dp : ℝ) (i j : ℕ) (b : ℝ) :
    stepAcc r dp i (some (j, b)) =
      if dp < b ∧ dp ≤ r then some (i, dp) else some (j, b) := rfl

/- Soundness of the loop when it ends with no pick: the accumulator was
empty and no processed point lies within the handle radius. -/
lemma pickNearestAux_eq_none (p : Pt) (r : ℝ) :
    ∀ (qs : List Pt) (i0 : ℕ) (acc : Option (ℕ × ℝ)),
      pickNearestAux p r qs i0 acc = none →
      acc = none ∧ ∀ q ∈ qs, ¬ hypot (p.x - q.x) (p.y - q.y) ≤ r := by
  intro qs
  induction qs with
  | nil =>
    intro i0 acc h
    exact ⟨h, by simp⟩
  | cons q rest ih =>
    intro i0 acc h
    obtain ⟨hacc, hrest⟩ := ih (i0 + 1) _ h
    rcases acc with _ | ⟨j, b⟩
    · by_cases hle : hypot (p.x - q.x) (p.y - q.y) ≤ r
      · rw [stepAcc_empty_hit r _ i0 hle] at hacc
        exact Option.noConfusion hacc
      · refine ⟨rfl, ?_⟩
        intro q2 hq2
        rcases List.mem_cons.mp hq2 with h1 | h2
        · rw [h1]; exact hle
        · exact hrest q2 h2
    · rw [stepAcc_some_eq] at hacc
      split_ifs at hacc

/- The loop never drops a point inside the handle radius: with everything
outside the radius and an empty accumulator the loop ends empty. -/
lemma pickNearestAux_none_of (p : Pt) (r : ℝ) :
    ∀ (qs : List Pt) (i0 : ℕ),
      (∀ q ∈ qs, ¬ hypot (p.x - q.x) (p.y - q.y) ≤ r) →
      pickNearestAux p r qs i0 none = none := by
  intro qs
  induction qs with
  | nil => intro i0 _; rfl
  | cons q rest ih =>
    intro i0 hall
    have hq : ¬ hypot (p.x - q.x) (p.y - q.y) ≤ r := hall q (List.mem_cons_self q rest)
    show pickNearestAux p r rest (i0 + 1)
        (stepAcc r (hypot (p.x - q.x) (p.y - q.y)) i0 none) = none
    rw [stepAcc_empty_miss r _ i0 hq]
    exact ih (i0 + 1) fun q2 hq2 => hall q2 (List.mem_cons_of_mem q hq2)

/- Soundness of the loop when it picks (i, d): d is within the radius; the
pick is the incoming accumulator or a processed point at absolute index i
with distance d; d is minimal among the in-radius processed distances; and
d does not exceed an incoming accumulator's best. -/
lemma pickNearestAux_eq_some (p : Pt) (r : ℝ) :
    ∀ (qs : List Pt) (i0 : ℕ) (acc : Option (ℕ × ℝ)) (i : ℕ) (d : ℝ),
      (∀ j e, acc = some (j, e) → e ≤ r) →
      pickNearestAux p r qs i0 acc = some (i, d) →
      d ≤ r ∧
      (acc = some (i, d) ∨
        ∃ k, ∃ hk : k < qs.length, i = i0 + k ∧
          d = hypot (p.x - (qs.get ⟨k, hk⟩).x) (p.y - (qs.get ⟨k, hk⟩).y)) ∧
      (∀ q ∈ qs, hypot (p.x - q.x) (p.y - q.y) ≤ r →
        d ≤ hypot (p.x - q.x) (p.y - q.y)) ∧
      (∀ j e, acc = some (j, e) → d ≤ e) := by
  intro qs
  induction qs with
  | nil =>
    intro i0 acc i d hacc h
    have h0 : acc = some (i, d) := h
    refine ⟨hacc i d h0, Or.inl h0, by simp, ?_⟩
    intro j e hje
    rw [h0] at hje
    have h2 : d = e := congrArg Prod.snd (Option.some.inj hje)
    exact le_of_eq h2
  | cons q rest ih =>
    intro i0 acc i d hacc h
    have hacc2 : ∀ j e,
        stepAcc r (hypot (p.x - q.x) (p.y - q.y)) i0 acc = some (j, e) → e ≤ r := by
      intro j e hje
      rcases acc with _ | ⟨j0, b0⟩
      · by_cases hle : hypot (p.x - q.x) (p.y - q.y) ≤ r
        · rw [stepAcc_empty_hit r _ i0 hle] at hje
          have h2 : hypot (p.x - q.x) (p.y - q.y) = e :=
            congrArg Prod.snd (Option.some.inj hje)
          rw [← h2]; exact hle
        · rw [stepAcc_empty_miss r _ i0 hle] at hje
          exact Option.noConfusion hje
      · rw [stepAcc_some_eq] at hje
        split_ifs at hje with hc
        · have h2 : hypot (p.x - q.x) (p.y - q.y) = e :=
            congrArg Prod.snd (Option.some.inj hje)
          rw [← h2]; exact hc.2
        · have h2 : b0 = e := congrArg Prod.snd (Option.some.inj hje)
          rw [← h2]; exact hacc j0 b0 rfl
    obtain ⟨hdr, horigin, hminrest, hle_acc2⟩ := ih (i0 + 1) _ i d hacc2 h
    refine ⟨hdr, ?_, ?_, ?_⟩
    · -- where the pick comes from
      rcases horigin with hcase | ⟨k, hk, hik, hdk⟩
      · -- the pick is the stepped accumulator
        rcases acc with _ | ⟨j0, b0⟩
        · by_cases hle : hypot (p.x - q.x) (p.y - q.y) ≤ r
          · rw [stepAcc_empty_hit r _ i0 hle] at hcase
            have h1 : i0 = i := congrArg Prod.fst (Option.some.inj hcase)
            have h2 : hypot (p.x - q.x) (p.y - q.y) = d :=
              congrArg Prod.snd (Option.some.inj hcase)
            exact Or.inr ⟨0, by simp, by omega, h2.symm⟩
          · rw [stepAcc_empty_miss r _ i0 hle] at hcase
            exact Option.noConfusion hcase
        · rw [stepAcc_some_eq] at hcase
          split_ifs at hcase with hc
          · have h1 : i0 = i := congrArg Prod.fst (Option.some.inj hcase)
            have h2 : hypot (p.x - q.x) (p.y - q.y) = d :=
              congrArg Prod.snd (Option.some.inj hcase)
            exact Or.inr ⟨0, by simp, by omega, h2.symm⟩
          · exact Or.inl hcase
      · -- the pick is a point of the tail
        exact Or.inr ⟨k + 1, by simpa using Nat.succ_lt_succ hk, by omega, hdk⟩
    · -- minimality over the whole list
      intro q2 hq2 hq2r
      rcases List.mem_cons.mp hq2 with h1 | h2
      · have hd : d ≤ hypot (p.x - q.x) (p.y - q.y) := by
          rw [h1] at hq2r
          rcases acc with _ | ⟨j0, b0⟩
          · exact hle_acc2 i0 _ (stepAcc_empty_hit r _ i0 hq2r)
          · by_cases hc : hypot (p.x - q.x) (p.y - q.y) < b0 ∧
                hypot (p.x - q.x) (p.y - q.y) ≤ r
            · exact hle_acc2 i0 _ (by rw [stepAcc_some_eq, if_pos hc])
            · have hbd : b0 ≤ hypot (p.x - q.x) (p.y - q.y) := by
                by_contra hbd
                exact hc ⟨lt_of_not_le hbd, hq2r⟩
              have hdb : d ≤ b0 :=
                hle_acc2 j0 b0 (by rw [stepAcc_some_eq, if_neg hc])
              linarith
        rw [h1]
        exact hd
      · exact hminrest q2 h2 hq2r
    · -- the pick does not exceed the incoming best
      intro j e hje
      rcases acc with _ | ⟨j0, b0⟩
      · exact Option.noConfusion hje
      · have hj : j0 = j := congrArg Prod.fst (Option.some.inj hje)
        have hb : b0 = e := congrArg Prod.snd (Option.some.inj hje)
        subst hj
        subst hb
        by_cases hc : hypot (p.x - q.x) (p.y - q.y) < b0 ∧
            hypot (p.x - q.x) (p.y - q.y) ≤ r
        · have hdd : d ≤ hypot (p.x - q.x) (p.y - q.y) :=
            hle_acc2 i0 _ (by rw [stepAcc_some_eq, if_pos hc])
          linarith [hc.1]
        · exact hle_acc2 j0 b0 (by rw [stepAcc_some_eq, if_neg hc])

/-- C4: on a pointer-down at p with the overlay interactive: whenever the
handler emits an origin selection with index i, point i lies within
originHandleRadius of p and is nearest among all points within the radius,
and no drag starts in that gesture (the emitted action is the selection,
not startDrag); whenever some point lies within the radius, a selection is
emitted; and when no point lies within the radius but p is within
originHandleRadius of the active origin, the dragging gesture begins
instead. -/
theorem handlePointerDown_spec_C4 (points : List Pt) (origin : Pt)
    (originHandleRadius : ℝ) (p : Pt) :
    (∀ i, handlePointerDown true points origin originHandleRadius p =
        PointerAction.selectOrigin i →
      ∃ hi : i < points.length,
        hypot (p.x - (points.get ⟨i, hi⟩).x) (p.y - (points.get ⟨i, hi⟩).y) ≤
          originHandleRadius ∧
        ∀ q ∈ points, hypot (p.x - q.x) (p.y - q.y) ≤ originHandleRadius →
          hypot (p.x - (points.get ⟨i, hi⟩).x) (p.y - (points.get ⟨i, hi⟩).y) ≤
            hypot (p.x - q.x) (p.y - q.y)) ∧
    ((∃ q ∈ points, hypot (p.x - q.x) (p.y - q.y) ≤ originHandleRadius) →
      ∃ i, handlePointerDown true points origin originHandleRadius p =
        PointerAction.selectOrigin i) ∧
    ((∀ q ∈ points, ¬ hypot (p.x - q.x) (p.y - q.y) ≤ originHandleRadius) →
      hypot (p.x - origin.x) (p.y - origin.y) ≤ originHandleRadius →
      handlePointerDown true points origin originHandleRadius p =
        PointerAction.startDrag) := by
  refine ⟨?_, ?_, ?_⟩
  · intro i hsel
    rcases hres : pickNearestAux p originHandleRadius points 0 none with _ | ⟨i2, d⟩
    · simp only [handlePointerDown, Bool.not_true, Bool.false_eq_true, if_false,
        hres] at hsel
      split_ifs at hsel
    · simp only [handlePointerDown, Bool.not_true, Bool.false_eq_true, if_false,
        hres] at hsel
      cases hsel
      obtain ⟨hdr, horigin, hmin, _⟩ :=
        pickNearestAux_eq_some p originHandleRadius points 0 none i d
          (fun j e hje => by cases hje) hres
      rcases horigin with hcase | ⟨k, hk, hik, hdk⟩
      · cases hcase
      · have hik0 : i = k := by omega
        subst hik0
        refine ⟨hk, ?_, ?_⟩
        · rw [← hdk]; exact hdr
        · intro q hq hqr
          rw [← hdk]
          exact hmin q hq hqr
  · intro ⟨q, hq, hqr⟩
    rcases hres : pickNearestAux p originHandleRadius points 0 none with _ | ⟨i2, d⟩
    · obtain ⟨_, hall⟩ := pickNearestAux_eq_none p originHandleRadius points 0 none hres
      exact absurd hqr (hall q hq)
    · exact ⟨i2, by simp only [handlePointerDown, Bool.not_true, Bool.false_eq_true,
        if_false, hres]⟩
  · intro hall hor
    have hres := pickNearestAux_none_of p originHandleRadius points 0 hall
    simp only [handlePointerDown, Bool.not_true, Bool.false_eq_true, if_false, hres]
    rw [if_pos hor]

/-- The scaled origin points of CustomMap
(src/tinyplanetmap/app/CustomMap.tsx line 536): each stored point scaled
from the base image space into the displayed space. -/
noncomputable def scaledPointsOf (pts : List Pt) (scale : ℝ) : List Pt :=
  pts.map fun q => ⟨q.x * scale, q.y * scale⟩

/-- The clamped active index of CustomMap (lines 537-540):
min (max activePoint 0) (max 0 (length - 1)). -/
def activeIdxOf (activePoint : ℤ) (n : ℕ) : ℤ :=
  min (max activePoint 0) (max 0 ((n : ℤ) - 1))

/-- The origin MapWithCone renders (line 75): the point at the cone origin
index among the scaled points, falling back to the center of the scaled
canvas when the index is out of range. -/
noncomputable def renderedOrigin (state : PathState) (scale baseW baseH : ℝ) : Pt :=
  (scaledPointsOf state.points scale).getD
    (activeIdxOf state.activePoint state.points.length).toNat
    ⟨baseW * scale / 2, baseH * scale / 2⟩

/-- The radius MapWithCone renders (line 76): the cone's stored radius when
present - passed through unscaled - else 0.6 times the smaller of the
scaled width or height. -/
noncomputable def renderedRadius (state : PathState) (scale baseW baseH : ℝ) : ℝ :=
  state.cone.radius.getD (min (baseW * scale) (baseH * scale) * 0.6)

/-- The sector boundary MapWithCone renders (lines 78-80): sectorPath at the
rendered origin and radius with the cone's yaw and pitch.  (The coneLocal
initialization replaces a non-positive stored pitch by pi/3 and is then
overwritten by the store-sync effect at lines 570-572; for the concrete
state of C6 the pitch is pi/3 either way.) -/
noncomputable def renderedConePath (state : PathState) (scale baseW baseH : ℝ) :
    List SvgCmd :=
  sectorPath (renderedOrigin state scale baseW baseH).x
    (renderedOrigin state scale baseW baseH).y
    (renderedRadius state scale baseW baseH) state.cone.yaw state.cone.pitch

/-- The arc start point of a rendered sector boundary: the target of the
line command that follows the opening move. -/
def pathArcStart : List SvgCmd → Option (ℝ × ℝ)
  | SvgCmd.move _ _ :: SvgCmd.line x y :: _ => some (x, y)
  | _ => none

/-- The arc end point of a rendered sector boundary: the target of the arc
command. -/
def pathArcEnd : List SvgCmd → Option (ℝ × ℝ)
  | SvgCmd.move _ _ :: SvgCmd.line _ _ :: SvgCmd.arc _ _ _ _ _ x y :: _ =>
      some (x, y)
  | _ => none

lemma pathArcStart_sectorPath (cx cy r yaw pitch : ℝ) (h : 0 < pitch) :
    pathArcStart (sectorPath cx cy r yaw pitch) =
      some (polarToCartesian cx cy r (yaw - pitch / 2)) := by
  unfold sectorPath
  rw [if_neg (not_le.mpr h)]
  rfl

lemma pathArcEnd_sectorPath (cx cy r yaw pitch : ℝ) (h : 0 < pitch) :
    pathArcEnd (sectorPath cx cy r yaw pitch) =
      some (polarToCartesian cx cy r (yaw + pitch / 2)) := by
  unfold sectorPath
  rw [if_neg (not_le.mpr h)]
  rfl

/-- The context state of the C6 scenario: points = [(0, 360)],
activePoint = 0, cone = (yaw 0, pitch pi/3, radius 100). -/
noncomputable def c6state : PathState :=
  { points := [⟨0, 360⟩], activePoint := 0,
    cone := { yaw := 0, pitch := Real.pi / 3, radius := some 100 } }

/- What the code renders for the C6 scenario at base 525 x 360 and display
scale 0.5: origin (0, 180), radius 100 (unscaled), and the two arc
endpoints of the rendered sector. -/
lemma renderedCone_c6_facts :
    renderedOrigin c6state 0.5 525 360 = ⟨0, 180⟩ ∧
    renderedRadius c6state 0.5 525 360 = 100 ∧
    pathArcStart (renderedConePath c6state 0.5 525 360) =
      some (polarToCartesian 0 180 100 (0 - Real.pi / 3 / 2)) ∧
    pathArcEnd (renderedConePath c6state 0.5 525 360) =
      some (polarToCartesian 0 180 100 (0 + Real.pi / 3 / 2)) := by
  have ho : renderedOrigin c6state 0.5 525 360 = ⟨0, 180⟩ := by
    simp only [renderedOrigin, scaledPointsOf, activeIdxOf, c6state, List.map_cons,
      List.map_nil, List.length_cons, List.length_nil]
    norm_num
  have hr : renderedRadius c6state 0.5 525 360 = 100 := by
    simp [renderedRadius, c6state]
  have hpath : renderedConePath c6state 0.5 525 360 =
      sectorPath 0 180 100 0 (Real.pi / 3) := by
    unfold renderedConePath
    rw [ho, hr]
    simp [c6state]
  have hpos : (0 : ℝ) < Real.pi / 3 := by positivity
  refine ⟨ho, hr, ?_, ?_⟩
  · rw [hpath]
    exact pathArcStart_sectorPath 0 180 100 0 (Real.pi / 3) hpos
  · rw [hpath]
    exact pathArcEnd_sectorPath 0 180 100 0 (Real.pi / 3) hpos

/-- Counterexample to C6: in the C6 scenario (context points [(0, 360)],
activePoint 0, cone (yaw 0, pitch pi/3, radius 100), base 525 x 360,
display scale 0.5), the rendered arc start and end points are NOT at
Euclidean distance 50 from the rendered origin (0, 180): the stored radius
100 is passed to the renderer unscaled, so both lie at distance 100. -/
theorem renderedCone_C6_cex :
    renderedOrigin c6state 0.5 525 360 = ⟨0, 180⟩ ∧
    ¬ (pathArcStart (renderedConePath c6state 0.5 525 360)).map
        (fun s => Real.sqrt ((s.1 - 0) ^ 2 + (s.2 - 180) ^ 2)) = some 50 ∧
    ¬ (pathArcEnd (renderedConePath c6state 0.5 525 360)).map
        (fun s => Real.sqrt ((s.1 - 0) ^ 2 + (s.2 - 180) ^ 2)) = some 50 := by
  obtain ⟨ho, hr, hs, he⟩ := renderedCone_c6_facts
  have hds : (pathArcStart (renderedConePath c6state 0.5 525 360)).map
      (fun s => Real.sqrt ((s.1 - 0) ^ 2 + (s.2 - 180) ^ 2)) = some 100 := by
    rw [hs, Option.map_some']
    exact congrArg some (polarToCartesian_dist 0 180 100 _ (by norm_num))
  have hde : (pathArcEnd (renderedConePath c6state 0.5 525 360)).map
      (fun s => Real.sqrt ((s.1 - 0) ^ 2 + (s.2 - 180) ^ 2)) = some 100 := by
    rw [he, Option.map_some']
    exact congrArg some (polarToCartesian_dist 0 180 100 _ (by norm_num))
  refine ⟨ho, ?_, ?_⟩
  · intro hcontra
    rw [hds] at hcontra
    have : (100 : ℝ) = 50 := Option.some.inj hcontra
    norm_num at this
  · intro hcontra
    rw [hde] at hcontra
    have : (100 : ℝ) = 50 := Option.some.inj hcontra
    norm_num at this

/-- C6 amended: in the C6 scenario the rendered cone origin is (0, 180) as
claimed, the rendered radius is the stored 100 passed through unscaled, and
the rendered sector's arc start and end points are each at Euclidean
distance 100 (not 50) from the origin. -/
theorem renderedCone_C6_amended :
    renderedOrigin c6state 0.5 525 360 = ⟨0, 180⟩ ∧
    renderedRadius c6state 0.5 525 360 = 100 ∧
    (pathArcStart (renderedConePath c6state 0.5 525 360)).map
        (fun s => Real.sqrt ((s.1 - 0) ^ 2 + (s.2 - 180) ^ 2)) = some 100 ∧
    (pathArcEnd (renderedConePath c6state 0.5 525 360)).map
        (fun s => Real.sqrt ((s.1 - 0) ^ 2 + (s.2 - 180) ^ 2)) = some 100 := by
  obtain ⟨ho, hr, hs, he⟩ := renderedCone_c6_facts
  refine ⟨ho, hr, ?_, ?_⟩
  · rw [hs, Option.map_some']
    exact congrArg some (polarToCartesian_dist 0 180 100 _ (by norm_num))
  · rw [he, Option.map_some']
    exact congrArg some (polarToCartesian_dist 0 180 100 _ (by norm_num))

end CmsComponents
